import Mathlib

/-!
Verification of the fixed-point quantization and multi-base codec library
`pyfda/pyfda_fix_lib.py` (class `Fixed` plus the free functions `dec2csd`,
`csd2dec`, `bin2hex`, `dec2hex`).

The numeric model uses exact rationals `ℚ`.  All values manipulated by the
library at the points the claims touch are dyadic rationals that are exactly
representable as IEEE doubles, so rational arithmetic agrees with the
floating-point arithmetic of the source for these claims.
-/

/-- Quantization method, source `q_obj['quant']` (`setQobj`, line 421).
`qnone` models the string value `'none'`. -/
inductive Quant where
  | floor | round | fix | ceil | rint | qnone
deriving DecidableEq

/-- Overflow method, source `q_obj['ovfl']` (`setQobj`, line 422).
`onone` models the string value `'none'`. -/
inductive Ovfl where
  | wrap | sat | onone
deriving DecidableEq

/-- Output / parse format, source `q_obj['frmt']` (`setQobj`, line 423). -/
inductive Frmt where
  | float | dec | bin | hex | csd
deriving DecidableEq

/-- Scaling mode of `Fixed.fixp` (keyword argument `scaling`, line 457). -/
inductive Scaling where
  | mult | div
deriving DecidableEq

/-- The quantization configuration stored by `Fixed.setQobj` (lines 417-424):
integer word length `WI` (may be negative), fractional word length `WF`
(the source applies `abs`, so it is a natural number), quantization and
overflow modes, display format and scale factor. -/
structure QConfig where
  WI : ℤ
  WF : ℕ
  quant : Quant
  ovfl : Ovfl
  frmt : Frmt
  scale : ℚ

/-- Power with a natural exponent, by structural recursion so that the
kernel can evaluate it. -/
def qnpow (b : ℚ) : ℕ → ℚ
  | 0 => 1
  | n + 1 => b * qnpow b n

/-- Python `**` with an integer exponent on floats: `b ** n` for `n < 0`
is `1 / b ** (-n)`. -/
def qzpow (b : ℚ) : ℤ → ℚ
  | .ofNat n => qnpow b n
  | .negSucc n => (qnpow b (n + 1))⁻¹

/-- `self.LSB = 2. ** -self.WF` (line 428). -/
def QConfig.LSB (c : QConfig) : ℚ := qzpow 2 (-(c.WF : ℤ))

/-- `self.MSB = 2. ** (self.WI - 1)` (line 429). -/
def QConfig.MSB (c : QConfig) : ℚ := qzpow 2 (c.WI - 1)

/-- `self.MAX = 2. * self.MSB - self.LSB` (line 431). -/
def QConfig.MAX (c : QConfig) : ℚ := 2 * c.MSB - c.LSB

/-- `self.MIN = -2. * self.MSB` (line 432). -/
def QConfig.MIN (c : QConfig) : ℚ := -2 * c.MSB

/-- `self.W = self.WF + self.WI + 1` (line 420). -/
def QConfig.W (c : QConfig) : ℤ := (c.WF : ℤ) + c.WI + 1

/-- `self.base` as derived from the format by `setQobj` (lines 436-450). -/
def QConfig.base (c : QConfig) : ℕ :=
  match c.frmt with
  | .dec => 10
  | .bin => 2
  | .csd => 2
  | .hex => 16
  | .float => 0

/-- `np.fix`: rounding toward zero, used by quant mode `'fix'` (line 567)
and by the wrap-around formula (line 604). -/
def ratFix (q : ℚ) : ℤ := if 0 ≤ q then q.floor else q.ceil

/-- `np.sign` on reals (line 604). -/
def ratSign (q : ℚ) : ℚ := if q < 0 then -1 else if q = 0 then 0 else 1

/-- `np.round` / `np.rint`: round to nearest integer, ties to even
(IEEE round-half-even, the numpy behaviour; lines 565 and 571). -/
def roundHalfEven (q : ℚ) : ℤ :=
  let f := q.floor
  let r := q - f
  if r < 1/2 then f
  else if 1/2 < r then f + 1
  else if f % 2 = 0 then f else f + 1

/-- The requantization step of `Fixed.fixp` (lines 563-576): dispatch on
`self.quant`.  The argument is the value already scaled to integer units
(`y / LSB`, possibly times `scale`); the result is a rational because
`quant = 'none'` returns the input unquantized. -/
def quantize (c : QConfig) (y : ℚ) : ℚ :=
  match c.quant with
  | .floor => (y.floor : ℚ)
  | .round => (roundHalfEven y : ℚ)
  | .fix => (ratFix y : ℚ)
  | .ceil => (y.ceil : ℚ)
  | .rint => (roundHalfEven y : ℚ)
  | .qnone => y

/-- Lines 557-579 of `Fixed.fixp`: divide by `LSB`, multiply by `scale`
when `scaling='mult'`, requantize, and scale back by `LSB`.  This is the
per-element "quantized value" against which overflow is detected. -/
def preQuant (c : QConfig) (sc : Scaling) (y : ℚ) : ℚ :=
  let y1 := y / c.LSB
  let y2 := match sc with
    | .mult => y1 * c.scale
    | .div => y1
  quantize c y2 * c.LSB

/-- Lines 583-607 of `Fixed.fixp`: overflow handling.  `over_neg` is
`yq < MIN`, `over_pos` is `yq >= MAX` (line 588-589).  Saturation replaces
positive overflows by `MAX` first, then negative overflows by `MIN`
(lines 599-600).  Wrap applies
`yq - 4*MSB*fix((sign(yq)*2*MSB + yq)/(4*MSB))` to every overflowed element
(lines 603-604). -/
def applyOvfl (c : QConfig) (yq : ℚ) : ℚ :=
  match c.ovfl with
  | .onone => yq
  | .sat =>
      let yq1 := if c.MAX ≤ yq then c.MAX else yq
      if yq < c.MIN then c.MIN else yq1
  | .wrap =>
      if c.MAX ≤ yq ∨ yq < c.MIN then
        yq - 4 * c.MSB * ((ratFix ((ratSign yq * 2 * c.MSB + yq) / (4 * c.MSB)) : ℤ) : ℚ)
      else yq

/-- Lines 609-610 of `Fixed.fixp`: divide by `scale` when `scaling='div'`. -/
def postScale (c : QConfig) (sc : Scaling) (yq : ℚ) : ℚ :=
  match sc with
  | .div => yq / c.scale
  | .mult => yq

/-- `Fixed.fixp` on a numeric scalar (lines 557-615): requantize, apply the
overflow policy, undo the scale for `scaling='div'`. -/
def fixp (c : QConfig) (sc : Scaling) (y : ℚ) : ℚ :=
  postScale c sc (applyOvfl c (preQuant c sc y))

/-- The cumulative overflow counters of a `Fixed` instance
(`N_over`, `N_over_neg`, `N_over_pos`; lines 593-595 and 618-621). -/
structure OvfStats where
  N_over : ℕ
  N_over_neg : ℕ
  N_over_pos : ℕ
deriving DecidableEq

/-- `Fixed.resetN` (lines 618-621): set all three counters to zero. -/
def resetN (_ : OvfStats) : OvfStats := ⟨0, 0, 0⟩

/-- `Fixed.fixp` on an array argument (the vectorized numpy path,
lines 503-615), together with its update of the overflow counters:
`N_over_neg += sum(yq < MIN)`, `N_over_pos += sum(yq >= MAX)`,
`N_over = N_over_neg + N_over_pos` (lines 586-595).  With `ovfl='none'`
the counters are untouched (lines 584-585). -/
def fixpBatch (c : QConfig) (sc : Scaling) (y : List ℚ) (st : OvfStats) :
    List ℚ × OvfStats :=
  let yq := y.map (fun v => preQuant c sc v)
  let st' := match c.ovfl with
    | .onone => st
    | _ =>
        let n := yq.countP (fun v => decide (v < c.MIN))
        let p := yq.countP (fun v => decide (c.MAX ≤ v))
        { N_over_neg := st.N_over_neg + n
          N_over_pos := st.N_over_pos + p
          N_over := (st.N_over_neg + n) + (st.N_over_pos + p) }
  (yq.map (fun v => postScale c sc (applyOvfl c v)), st')

/-! ## String-level helpers -/

/-- Python `str.split('.')`: cut a character list at every `'.'`,
keeping empty pieces.  `splitOnDot l` always has `(number of dots) + 1`
elements, exactly like the Python call. -/
def splitOnDot : List Char → List (List Char)
  | [] => [[]]
  | ch :: rest =>
      let r := splitOnDot rest
      if ch = '.' then [] :: r
      else (ch :: r.headD []) :: r.drop 1

/-- Numeric value of one character as a digit, as accepted by Python
`int(s, base)`: `'0'-'9'`, `'A'-'F'`, `'a'-'f'`.  Any other character maps
to `16`, which is rejected by every base the library uses. -/
def charDigitVal (ch : Char) : ℕ :=
  if '0' ≤ ch ∧ ch ≤ '9' then ch.toNat - 48
  else if 'A' ≤ ch ∧ ch ≤ 'F' then ch.toNat - 55
  else if 'a' ≤ ch ∧ ch ≤ 'f' then ch.toNat - 87
  else 16

/-- Whether `ch` is a valid digit for `base`. -/
def isBaseDigit (base : ℕ) (ch : Char) : Bool := decide (charDigitVal ch < base)

/-- Value of an unsigned digit string read most-significant first. -/
def digitsVal (base : ℕ) (l : List Char) : ℕ :=
  l.foldl (fun acc ch => acc * base + charDigitVal ch) 0

/-- A nonempty all-digit character list parsed in `base`; `none` exactly
when Python `int(s, base)` would raise on an unsigned digit run. -/
def parseDigitsB (base : ℕ) (l : List Char) : Option ℕ :=
  if l ≠ [] ∧ l.all (fun ch => isBaseDigit base ch) then some (digitsVal base l)
  else none

/-- Python `int(s, base)` (line 724): optional sign followed by a nonempty
digit run; `none` models the `ValueError` caught at line 733. -/
def parseIntBase (base : ℕ) (l : List Char) : Option ℤ :=
  match l with
  | [] => none
  | ch :: t =>
      if ch = '-' then (parseDigitsB base t).map (fun u => -(u : ℤ))
      else if ch = '+' then (parseDigitsB base t).map (fun u => (u : ℤ))
      else (parseDigitsB base l).map (fun u => (u : ℤ))

/-- Python `float(s)` / `np.float64(s)` on a plain decimal literal
(optional sign, digits, at most one point; exponent forms, `inf` and `nan`
never survive the library's character stripping).  `none` models the
`ValueError` branch. -/
def parseUDec (l : List Char) : Option ℚ :=
  match splitOnDot l with
  | [i] =>
      if i ≠ [] ∧ i.all (fun ch => isBaseDigit 10 ch) then some ((digitsVal 10 i : ℕ) : ℚ)
      else none
  | [i, f] =>
      if (i ++ f) ≠ [] ∧ (i ++ f).all (fun ch => isBaseDigit 10 ch) then
        some (((digitsVal 10 (i ++ f) : ℕ) : ℚ) / qnpow 10 f.length)
      else none
  | _ => none

/-- Signed version of `parseUDec`, the model of Python `float()`. -/
def parseDec (s : String) : Option ℚ :=
  match s.data with
  | [] => none
  | ch :: t =>
      if ch = '-' then (parseUDec t).map (fun q => -q)
      else if ch = '+' then parseUDec t
      else parseUDec s.data

/-! ## CSD codec (`dec2csd`, `csd2dec`, lines 100-248) -/

/-- `int(np.ceil(np.log2 x))` for `x > 1`: the least `k : ℕ` with
`x ≤ 2 ^ k`, computed by repeated halving (the fuel bounds the recursion;
`x.num.natAbs + 1` halvings always suffice). -/
def ceilLog2F : ℕ → ℚ → ℕ
  | 0, _ => 0
  | fuel + 1, x => if x ≤ 1 then 0 else ceilLog2F fuel (x / 2) + 1

/-- `int(np.ceil(np.log2 x))` of `dec2csd` (line 131), for `x > 1`. -/
def ceilLog2 (x : ℚ) : ℕ := ceilLog2F (x.num.natAbs + 1) x

/-- The digit-emitting loop of `dec2csd` (lines 141-170): exponents run
from `k` down to `-WF`; the radix point is inserted in front of the digit
for exponent `-1`; a non-zero digit forces the next digit to `'0'`
(`prev_non_zero`); otherwise the remainder is compared against
`2^(k+1)/3`. -/
def csdLoop (fuel : ℕ) (WF : ℕ) (k : ℤ) (r : ℚ) (prev : Bool) : List Char :=
  match fuel with
  | 0 => []
  | fuel + 1 =>
      if k < -(WF : ℤ) then []
      else
        (if k = -1 then ['.'] else []) ++
        (match prev with
         | true => '0' :: csdLoop fuel WF (k - 1) r false
         | false =>
           if qzpow 2 (k + 1) / 3 < r then
             '+' :: csdLoop fuel WF (k - 1) (r - qzpow 2 k) true
           else if r < -(qzpow 2 (k + 1) / 3) then
             '-' :: csdLoop fuel WF (k - 1) (r + qzpow 2 k) true
           else '0' :: csdLoop fuel WF (k - 1) r false)

/-- `dec2csd(dec_val, WF)` (lines 100-180): canonical-signed-digit string
with `WF` fractional places.  Zero gives `"0"`; the leading exponent is
`0` for `|v| < 1` and `ceil(log2(|v| * 1.5))` otherwise; a literal `'0'`
is prepended when `|v| < 1`. -/
def dec2csd (dec_val : ℚ) (WF : ℕ) : String :=
  if dec_val = 0 then "0"
  else
    let k : ℤ := if |dec_val| < 1 then 0 else (ceilLog2 (|dec_val| * 3 / 2) : ℤ)
    let digits := csdLoop (k + WF + 1).toNat WF (k - 1) dec_val false
    String.mk (if |dec_val| < 1 then '0' :: digits else digits)

/-- A character removed by `re.sub('[+-0 ]', '', csd_str)` (line 228).
Note `[+-0 ]` contains the RANGE `+-0`, i.e. the characters
`'+' ',' '-' '.' '/' '0'`, plus the space. -/
def csdLegal (ch : Char) : Bool :=
  ch = '+' ∨ ch = ',' ∨ ch = '-' ∨ ch = '.' ∨ ch = '/' ∨ ch = '0' ∨ ch = ' '

/-- A character that survives the regex of line 228 and therefore makes
`csd2dec` report an invalid CSD string. -/
def csdIllegal (ch : Char) : Bool := !csdLegal ch

/-- The digit scan of `csd2dec` (lines 234-246): character `ii` weighs
`2 ^ (msb_power - ii)`, added for `'+'`, subtracted for `'-'`, everything
else ignored. -/
def csdSum : List Char → ℤ → ℚ
  | [], _ => 0
  | ch :: t, p =>
      (if ch = '+' then qzpow 2 p else if ch = '-' then -qzpow 2 p else 0) + csdSum t (p - 1)

/-- `csd2dec(csd_str)` (lines 183-248).  A lone `'.'` splits the string
into integer and fractional parts and is removed; any other dot count
(`ValueError` on unpack) leaves the string untouched.  `msb_power` is the
length of the integer part minus one.  Characters outside the class
`[+-0 ]` (a regex range: `+ , - . / 0` and space) yield `none`.
The `int_places` parameter of the source is unused there and omitted. -/
def csd2dec (csd_str : String) : Option ℚ :=
  let parts := splitOnDot csd_str.data
  let p : List Char × List Char :=
    match parts with
    | [i, _] => (i, csd_str.data.filter (fun ch => ch ≠ '.'))
    | _ => (csd_str.data, csd_str.data)
  if p.2.any (fun ch => csdIllegal ch) then none
  else some (csdSum p.2 ((p.1.length : ℤ) - 1))

/-! ## `Fixed.frmt2float` (lines 626-758) -/

/-- The characters KEPT by `re.sub(self.FRMT_REGEX[frmt], '', …)`
(lines 376-381, applied at line 677).  The regex classes contain a literal
`'|'`, so `'|'` survives the stripping in every format. -/
def frmtAllowed : Frmt → Char → Bool
  | .bin, ch => ch = '0' ∨ ch = '1' ∨ ch = '|' ∨ ch = '.' ∨ ch = ',' ∨ ch = '-'
  | .csd, ch => ch = '0' ∨ ch = '|' ∨ ch = '+' ∨ ch = '-' ∨ ch = '.' ∨ ch = ','
  | .dec, ch => ('0' ≤ ch ∧ ch ≤ '9') ∨ ch = '|' ∨ ch = '.' ∨ ch = ',' ∨ ch = '-'
  | .hex, ch =>
      ('0' ≤ ch ∧ ch ≤ '9') ∨ ('A' ≤ ch ∧ ch ≤ 'F') ∨ ('a' ≤ ch ∧ ch ≤ 'f') ∨
      ch = '|' ∨ ch = '.' ∨ ch = ',' ∨ ch = '-'
  | .float, _ => true

/-- `Fixed.frmt2float(y)` (lines 626-758) with `frmt` taken from the
configuration (the source's `frmt=None` default).  `data_old` models the
external module-global fallback `fb.data_old`; the returned `none` models
the Python `None` that the `float` branch can return directly (line 670).

The non-float path strips characters not allowed for the format, falls
back to `data_old`/`0` when nothing is left, maps `','` to `'.'`, prepends
`'0'` before a leading `'.'`, splits at the radix point (a `ValueError`
from more than one point keeps the whole string as integer part), and
dispatches:
* `dec`: `fixp(float(val_str), scaling='div')` — a failed `float()` inside
  `fixp` falls back to `0` (lines 539-546, 709-712);
* `bin`/`hex`: unsigned value of the joined digits, divided by
  `base ** frc_places`; if the quotient is `≥ base ** int_places` it is
  reduced by `2 * base ** int_places`; then `fixp(·, scaling='div')`
  (lines 717-736);
* `csd`: `csd2dec` of the dot-free string, divided by `2 ** (W-1)`
  (lines 741-744);
with `data_old` (or `0`) returned whenever the branch produced `None`
(lines 753-758). -/
def frmt2float (c : QConfig) (data_old : Option ℚ) (y : String) : Option ℚ :=
  if y = "" then some 0
  else if c.frmt = .float then parseDec y
  else
    let val0 := y.data.filter (fun ch => frmtAllowed c.frmt ch)
    if val0.length = 0 then some (Option.getD data_old 0)
    else
      let val1 := val0.map (fun ch => if ch = ',' then '.' else ch)
      let val2 := if val1.head? = some '.' then '0' :: val1 else val1
      let parts := splitOnDot val2
      let isplit : List Char × List Char :=
        match parts with
        | [i, f] => (i, f)
        | _ => (val2, [])
      let int_places : ℤ := (isplit.1.length : ℤ) - 1
      let frc_places : ℕ := isplit.2.length
      let raw := val2.filter (fun ch => ch ≠ '.')
      if c.frmt = .dec then
        some (fixp c .div ((parseDec (String.mk val2)).getD 0))
      else if c.frmt = .csd then
        match csd2dec (String.mk raw) with
        | some v => some (v / qzpow 2 (c.W - 1))
        | none => some (Option.getD data_old 0)
      else
        match parseIntBase c.base raw with
        | some i =>
            let y0 : ℚ := (i : ℚ) / qnpow (c.base : ℚ) frc_places
            let y1 := if qzpow (c.base : ℚ) int_places ≤ y0 then
                        y0 - 2 * qzpow (c.base : ℚ) int_places
                      else y0
            some (fixp c .div y1)
        | none => some (Option.getD data_old 0)

/-! ## `Fixed.float2frmt` (lines 762-853), `dec` and `csd` branches -/

/-- Decimal fractional digits of `0 ≤ f < 1`, by repeated multiplication
by ten, stopping at zero (the exact expansion of a terminating decimal). -/
def fracDigits : ℕ → ℚ → List Char
  | 0, _ => []
  | fuel + 1, f =>
      if f = 0 then []
      else
        let d := (f * 10).floor
        Char.ofNat (48 + d.toNat) :: fracDigits fuel (f * 10 - (d : ℚ))

/-- Python `str()` of a `np.float64` holding a dyadic rational that is
exactly representable with few digits (every value the `dec` branch of
`float2frmt` prints at small `WF`): sign, integer part, `'.'`, exact
fractional digits, with `.0` for integral values.  1100 fractional digits
cover every IEEE double. -/
def ratToDecString (q : ℚ) : String :=
  let sgn := if q < 0 then "-" else ""
  let a := |q|
  let frac := a - (a.floor : ℚ)
  let fd := if frac = 0 then "0" else String.mk (fracDigits 1100 frac)
  sgn ++ toString a.floor ++ "." ++ fd

/-- The `dec` branch of `float2frmt` (lines 813-819): quantize with
`fixp(y, scaling='mult')`; with `WF == 0` convert to `np.int64` (truncation
toward zero) to drop the trailing `.0`; render with `str()`. -/
def float2frmtDec (c : QConfig) (y : ℚ) : String :=
  let y_fix := fixp c .mult y
  if c.WF = 0 then toString (ratFix y_fix) else ratToDecString y_fix

/-- The `csd` branch of `float2frmt` (lines 813, 821-822):
`dec2csd(fixp(y, scaling='mult'), WF)`. -/
def float2frmtCsd (c : QConfig) (y : ℚ) : String :=
  dec2csd (fixp c .mult y) c.WF

/-! ## Concrete configurations used by the spec's examples -/

/-- `{'WI':1, 'WF':6, 'ovfl':'sat', 'quant':'round', 'frmt':'dec', 'scale':1}`. -/
def cfgSatDec : QConfig := ⟨1, 6, .round, .sat, .dec, 1⟩

/-- Same word lengths with `ovfl:'wrap'`. -/
def cfgWrapDec : QConfig := ⟨1, 6, .round, .wrap, .dec, 1⟩

/-- Same word lengths with `frmt:'bin'`. -/
def cfgSatBin : QConfig := ⟨1, 6, .round, .sat, .bin, 1⟩

/-- Same word lengths with `frmt:'csd'`. -/
def cfgSatCsd : QConfig := ⟨1, 6, .round, .sat, .csd, 1⟩

/-! ## Auxiliary predicates and spec-side definitions -/

/-- No two adjacent characters are both non-`'0'` (the CSD non-adjacency
property, checked on a digit list with the radix point removed). -/
def csdNoAdj : List Char → Bool
  | a :: b :: t => ((a == '0') || (b == '0')) && csdNoAdj (b :: t)
  | _ => true

/-- Modelled from the spec's words for claim C7 (NOT from the source):
"interpret the joined digit string as an unsigned integer in the format's
base; if that integer is ≥ `base^(integerDigitCount)` treat it as
two's-complement negative by subtracting `2 · base^(integerDigitCount)`;
divide by `base^(fractionalDigitCount)`; route the result through
`fixp(·, div)`".  The exponent `e` is passed explicitly so that both
readings of "integerDigitCount" (the source's `int_places =
len(int_str) - 1`, or the number of integer digits `len(int_str)`) can be
compared with the code. -/
def frmt2floatClaimC7 (c : QConfig) (ip fp : List Char) (e : ℕ) : ℚ :=
  let u : ℤ := (digitsVal c.base (ip ++ fp) : ℤ)
  let u2 : ℤ := if (c.base : ℤ) ^ e ≤ u then u - 2 * (c.base : ℤ) ^ e else u
  fixp c .div ((u2 : ℚ) / qnpow (c.base : ℚ) fp.length)

/-- The digit characters Python `int(s, 2)` accepts. -/
def binDigitChars : List Char := ['0', '1']

/-- The digit characters Python `int(s, 16)` accepts. -/
def hexDigitChars : List Char :=
  ['0', '1', '2', '3', '4', '5', '6', '7', '8', '9',
   'A', 'B', 'C', 'D', 'E', 'F', 'a', 'b', 'c', 'd', 'e', 'f']

/-! # Claim theorems -/

/-- C4: with `{WI:1, WF:6, ovfl:sat, quant:round}` the derived constants
are `MSB = 1`, `LSB = 1/64`, `MAX = 1.984375`, `MIN = -2`, and `fixp`
saturates out-of-range inputs: `fixp(2.5) = 1.984375`, `fixp(-3) = -2`. -/
theorem fixp_saturation_example :
    cfgSatDec.MSB = 1 ∧ cfgSatDec.LSB = 1/64 ∧
    cfgSatDec.MAX = (1.984375 : ℚ) ∧ cfgSatDec.MIN = -2 ∧
    fixp cfgSatDec .mult (5/2) = (1.984375 : ℚ) ∧
    fixp cfgSatDec .mult (-3) = -2 := by
  with_unfolding_all decide

/-- C2 (counterexample): under `{WI:1, WF:6, ovfl:wrap, quant:round}` the
input `-6` wraps to `2`, which is strictly greater than
`MAX = 1.984375` — the result of `fixp` does NOT always lie in
`[MIN, MAX]` when `ovfl = wrap`. -/
theorem fixp_wrap_out_of_range_counterexample :
    fixp cfgWrapDec .mult (-6) = 2 ∧ ¬((2 : ℚ) ≤ cfgWrapDec.MAX) := by
  with_unfolding_all decide

/-- C3 (counterexample): with `{WI:1, WF:6, ovfl:sat, quant:round,
frmt:dec}`, `float2frmt(-1.1)` does NOT render the decimal string for
`-1.09375·64 = -70`. -/
theorem float2frmt_dec_not_scaled_counterexample :
    float2frmtDec cfgSatDec (-1.1) ≠ "-70" := by
  with_unfolding_all decide

/-- C3 (amended): with `frmt = dec`, `float2frmt` renders the quantized
value itself (as returned by `fixp`, NOT scaled by `2^WF`) as a signed
decimal string; with `{WI:1, WF:6, ovfl:sat, quant:round, frmt:dec}`,
`float2frmt(-1.1)` quantizes to `round(-1.1·64)/64 = -1.09375` and renders
`"-1.09375"`. -/
theorem float2frmt_dec_renders_fixp_value :
    fixp cfgSatDec .mult (-1.1) = -(1.09375 : ℚ) ∧
    fixp cfgSatDec .mult (-1.1) = -(70 : ℚ)/64 ∧
    float2frmtDec cfgSatDec (-1.1) = "-1.09375" := by
  with_unfolding_all decide

/-- C1: the round-trip contract fails on the code.  With
`{WI:1, WF:6, ovfl:sat, quant:round, frmt:csd}` the representable value
`1.5` (`= 96·LSB`, within `[MIN, MAX]`) is rendered as `"+0.-00000"`, but
`frmt2float` parses that string back to `0.75`, not `1.5`: the csd parse
divides `csd2dec` of the radix-point-free string by `2^(W-1)`, which
mis-scales whenever `WI ≠ 0`. -/
theorem csd_roundtrip_failing_input :
    float2frmtCsd cfgSatCsd (3/2) = "+0.-00000" ∧
    frmt2float cfgSatCsd none "+0.-00000" = some (3/4) ∧
    ((3 : ℚ)/4 ≠ 3/2) := by
  with_unfolding_all decide

/-- C7 (counterexample): with `{WI:1, WF:6, ovfl:sat, quant:round,
frmt:bin}` on input `"1.01"` the code returns `-0.75`, while the recipe
stated by the claim (subtract `2·base^e` from the raw joined integer when
it is `≥ base^e`, THEN divide by `base^frc`) yields `0.75` for
`e = int_places = 0` and `0.25` for `e = integer digit count = 1` — the
code instead divides first and compares/corrects the scaled value. -/
theorem frmt2float_radix_order_counterexample :
    frmt2float cfgSatBin none "1.01" = some (-(3/4)) ∧
    frmt2floatClaimC7 cfgSatBin ['1'] ['0', '1'] 0 = 3/4 ∧
    frmt2floatClaimC7 cfgSatBin ['1'] ['0', '1'] 1 = 1/4 ∧
    (-(3 : ℚ)/4 ≠ 3/4) ∧ (-(3 : ℚ)/4 ≠ 1/4) := by
  with_unfolding_all decide

/-- C8 (counterexample): `csd2dec "+ "` contains a space, a character
other than `'+'`, `'-'`, `'0'` and the radix point, yet the conversion
succeeds (the regex class `[+-0 ]` also strips spaces): the "exactly
when" of the claim is false. -/
theorem csd2dec_space_counterexample :
    csd2dec "+ " = some 2 ∧
    ¬(' ' = '+' ∨ ' ' = '-' ∨ ' ' = '0' ∨ ' ' = '.') := by
  with_unfolding_all decide

/-- C10: `frmt2float` applied to the empty string returns `0` immediately,
for every configured format and even when an external fallback value
exists. -/
theorem frmt2float_empty_returns_zero (c : QConfig) (data_old : Option ℚ) :
    frmt2float c data_old "" = some 0 := by
  simp [frmt2float]

/-- Saturation clamps every quantized value into `[MIN, MAX]` whenever the
interval is nonempty. -/
theorem applyOvfl_sat_mem (c : QConfig) (ho : c.ovfl = .sat)
    (hr : c.MIN ≤ c.MAX) (yq : ℚ) :
    c.MIN ≤ applyOvfl c yq ∧ applyOvfl c yq ≤ c.MAX := by
  simp only [applyOvfl, ho]
  split
  next h1 => exact ⟨le_refl _, hr⟩
  next h1 =>
    split
    next h2 => exact ⟨hr, le_refl _⟩
    next h2 => exact ⟨le_of_not_lt h1, le_of_lt (lt_of_not_le h2)⟩

/-- C2 (amended): with `ovfl = 'sat'`, `scaling = 'mult'` and a nonempty
range (`MIN ≤ MAX`, i.e. `W ≥ 0`), every element returned by `fixp` lies
in `[MIN, MAX]`.  (As stated the claim is false: under `ovfl = 'wrap'`
the wrap formula can land outside the range — see the counterexample —
and with `scaling = 'div'` the final division by `scale` can leave the
range as well.) -/
theorem fixp_sat_batch_in_range (c : QConfig) (sc : Scaling) (ys : List ℚ)
    (st : OvfStats) (v : ℚ) (ho : c.ovfl = .sat) (hs : sc = .mult)
    (hr : c.MIN ≤ c.MAX) (hv : v ∈ (fixpBatch c sc ys st).1) :
    c.MIN ≤ v ∧ v ≤ c.MAX := by
  subst hs
  simp only [fixpBatch, List.map_map, List.mem_map, Function.comp] at hv
  obtain ⟨x, _, rfl⟩ := hv
  have h := applyOvfl_sat_mem c ho hr (preQuant c .mult x)
  simpa [postScale] using h

/-- C2 (witness). -/
theorem fixp_sat_batch_in_range_witness :
    (cfgSatDec.ovfl = .sat ∧ cfgSatDec.MIN ≤ cfgSatDec.MAX ∧
      (127 : ℚ)/64 ∈ (fixpBatch cfgSatDec .mult [5/2] ⟨0, 0, 0⟩).1) ∧
    (cfgSatDec.MIN ≤ (127 : ℚ)/64 ∧ (127 : ℚ)/64 ≤ cfgSatDec.MAX) :=
  ⟨by with_unfolding_all decide,
   fixp_sat_batch_in_range cfgSatDec .mult [5/2] ⟨0, 0, 0⟩ (127/64) rfl rfl
     (by with_unfolding_all decide) (by with_unfolding_all decide)⟩

/-- The wrap branch of the overflow handler, for out-of-range values. -/
theorem applyOvfl_wrap (c : QConfig) (ho : c.ovfl = .wrap) (yq : ℚ)
    (hov : c.MAX ≤ yq ∨ yq < c.MIN) :
    applyOvfl c yq =
      yq - 4 * c.MSB *
        ((ratFix ((ratSign yq * 2 * c.MSB + yq) / (4 * c.MSB)) : ℤ) : ℚ) := by
  simp only [applyOvfl, ho]
  rw [if_pos hov]

/-- C5: under `{WI:1, WF:6, ovfl:wrap, quant:round}`, every out-of-range
quantized value is replaced by
`yq − 4·MSB·fix((sign(yq)·2·MSB + yq)/(4·MSB))`; in particular
`fixp(2.5) = -1.5`. -/
theorem fixp_wrap_formula :
    (∀ y : ℚ,
      cfgWrapDec.MAX ≤ preQuant cfgWrapDec .mult y ∨
        preQuant cfgWrapDec .mult y < cfgWrapDec.MIN →
      fixp cfgWrapDec .mult y =
        preQuant cfgWrapDec .mult y -
          4 * cfgWrapDec.MSB *
            ((ratFix ((ratSign (preQuant cfgWrapDec .mult y) * 2 * cfgWrapDec.MSB +
                preQuant cfgWrapDec .mult y) / (4 * cfgWrapDec.MSB)) : ℤ) : ℚ)) ∧
    fixp cfgWrapDec .mult (5/2) = -(3/2) := by
  constructor
  · intro y h
    unfold fixp
    rw [applyOvfl_wrap cfgWrapDec rfl _ h]
    rfl
  · with_unfolding_all decide

/-- C5 (witness). -/
theorem fixp_wrap_formula_witness :
    (cfgWrapDec.MAX ≤ preQuant cfgWrapDec .mult (5/2) ∨
      preQuant cfgWrapDec .mult (5/2) < cfgWrapDec.MIN) ∧
    fixp cfgWrapDec .mult (5/2) =
      preQuant cfgWrapDec .mult (5/2) -
        4 * cfgWrapDec.MSB *
          ((ratFix ((ratSign (preQuant cfgWrapDec .mult (5/2)) * 2 * cfgWrapDec.MSB +
              preQuant cfgWrapDec .mult (5/2)) / (4 * cfgWrapDec.MSB)) : ℤ) : ℚ) :=
  ⟨by with_unfolding_all decide,
   fixp_wrap_formula.1 (5/2) (by with_unfolding_all decide)⟩

/-- C6: a `fixp` call under `sat` or `wrap` on a batch with `p` quantized
values `≥ MAX` and `n` quantized values `< MIN` increases the positive
overflow counter by exactly `p`, the negative one by exactly `n` and the
total by `p + n` (the counters being consistent, as `resetN` and every
previous `fixp` call leave them); `resetN` zeroes all three counters. -/
theorem fixp_overflow_accounting (c : QConfig) (sc : Scaling) (ys : List ℚ)
    (st : OvfStats) (hov : c.ovfl = .sat ∨ c.ovfl = .wrap)
    (hcons : st.N_over = st.N_over_neg + st.N_over_pos) :
    (fixpBatch c sc ys st).2.N_over_pos =
      st.N_over_pos +
        (ys.map (fun v => preQuant c sc v)).countP (fun v => decide (c.MAX ≤ v)) ∧
    (fixpBatch c sc ys st).2.N_over_neg =
      st.N_over_neg +
        (ys.map (fun v => preQuant c sc v)).countP (fun v => decide (v < c.MIN)) ∧
    (fixpBatch c sc ys st).2.N_over =
      st.N_over +
        ((ys.map (fun v => preQuant c sc v)).countP (fun v => decide (c.MAX ≤ v)) +
         (ys.map (fun v => preQuant c sc v)).countP (fun v => decide (v < c.MIN))) ∧
    resetN st = ⟨0, 0, 0⟩ := by
  refine ⟨?_, ?_, ?_, rfl⟩ <;>
    rcases hov with h | h <;>
    simp only [fixpBatch, h] <;>
    omega

/-- A `'0'` in front never breaks non-adjacency. -/
theorem csdNoAdj_cons_zero (l : List Char) : csdNoAdj ('0' :: l) = csdNoAdj l := by
  cases l with
  | nil => rfl
  | cons b t => simp [csdNoAdj]

/-- Any digit can be put in front of a non-adjacent list whose head (if
any) is `'0'`. -/
theorem csdNoAdj_cons_headed (a : Char) (l : List Char)
    (hl : csdNoAdj l = true) (hh : ∀ b t, l = b :: t → b = '0') :
    csdNoAdj (a :: l) = true := by
  cases l with
  | nil => rfl
  | cons b t =>
    have hb : b = '0' := hh b t rfl
    subst hb
    simp [csdNoAdj, hl]

/-- The digit loop of `dec2csd` never emits two adjacent non-`'0'` digits
(radix point ignored), and when entered with `prev_non_zero` set, its
first emitted digit is `'0'`. -/
theorem csdLoop_noAdj (WF : ℕ) (fuel : ℕ) :
    ∀ (k : ℤ) (r : ℚ) (prev : Bool),
      csdNoAdj ((csdLoop fuel WF k r prev).filter (fun ch => ch ≠ '.')) = true ∧
      (prev = true →
        ∀ a t, (csdLoop fuel WF k r prev).filter (fun ch => ch ≠ '.') = a :: t →
          a = '0') := by
  induction fuel with
  | zero =>
    intro k r prev
    exact ⟨rfl, fun _ a t h => List.noConfusion h⟩
  | succ f ih =>
    intro k r prev
    simp only [csdLoop]
    split
    next hk => exact ⟨rfl, fun _ a t h => List.noConfusion h⟩
    next hk =>
      have hpt : ∀ l : List Char,
          ((if k = -1 then ['.'] else []) ++ l).filter (fun ch => ch ≠ '.') =
            l.filter (fun ch => ch ≠ '.') := by
        intro l
        split <;> simp
      cases prev with
      | true =>
        rw [show (match true with
              | true => '0' :: csdLoop f WF (k - 1) r false
              | false =>
                if qzpow 2 (k + 1) / 3 < r then
                  '+' :: csdLoop f WF (k - 1) (r - qzpow 2 k) true
                else if r < -(qzpow 2 (k + 1) / 3) then
                  '-' :: csdLoop f WF (k - 1) (r + qzpow 2 k) true
                else '0' :: csdLoop f WF (k - 1) r false) =
            '0' :: csdLoop f WF (k - 1) r false from rfl]
        rw [hpt, List.filter_cons_of_pos (by decide)]
        refine ⟨?_, ?_⟩
        · rw [csdNoAdj_cons_zero]
          exact (ih (k - 1) r false).1
        · intro _ a t h
          injection h with h1 _
          exact h1.symm
      | false =>
        rw [show (match false with
              | true => '0' :: csdLoop f WF (k - 1) r false
              | false =>
                if qzpow 2 (k + 1) / 3 < r then
                  '+' :: csdLoop f WF (k - 1) (r - qzpow 2 k) true
                else if r < -(qzpow 2 (k + 1) / 3) then
                  '-' :: csdLoop f WF (k - 1) (r + qzpow 2 k) true
                else '0' :: csdLoop f WF (k - 1) r false) =
            (if qzpow 2 (k + 1) / 3 < r then
               '+' :: csdLoop f WF (k - 1) (r - qzpow 2 k) true
             else if r < -(qzpow 2 (k + 1) / 3) then
               '-' :: csdLoop f WF (k - 1) (r + qzpow 2 k) true
             else '0' :: csdLoop f WF (k - 1) r false) from rfl]
        rw [hpt]
        split
        next hc =>
          rw [List.filter_cons_of_pos (by decide)]
          refine ⟨?_, fun hco => Bool.noConfusion hco⟩
          exact csdNoAdj_cons_headed _ _ (ih (k - 1) (r - qzpow 2 k) true).1
            (fun b t hb => (ih (k - 1) (r - qzpow 2 k) true).2 rfl b t hb)
        next hc =>
          split
          next hc2 =>
            rw [List.filter_cons_of_pos (by decide)]
            refine ⟨?_, fun hco => Bool.noConfusion hco⟩
            exact csdNoAdj_cons_headed _ _ (ih (k - 1) (r + qzpow 2 k) true).1
              (fun b t hb => (ih (k - 1) (r + qzpow 2 k) true).2 rfl b t hb)
          next hc2 =>
            rw [List.filter_cons_of_pos (by decide)]
            refine ⟨?_, fun hco => Bool.noConfusion hco⟩
            rw [csdNoAdj_cons_zero]
            exact (ih (k - 1) r false).1

/-- C9: for every input value and every fractional bit count, `dec2csd`
never emits two consecutive non-`'0'` digit symbols (radix point
ignored). -/
theorem dec2csd_no_adjacent_nonzero (v : ℚ) (WF : ℕ) :
    csdNoAdj ((dec2csd v WF).data.filter (fun ch => ch ≠ '.')) = true := by
  have hmk : ∀ l : List Char, (String.mk l).data = l := fun _ => rfl
  simp only [dec2csd]
  split
  next => decide
  next =>
    rw [hmk]
    split
    next =>
      rw [List.filter_cons_of_pos (by decide), csdNoAdj_cons_zero]
      exact (csdLoop_noAdj WF _ _ _ _).1
    next =>
      exact (csdLoop_noAdj WF _ _ _ _).1

/-- C6 (witness). -/
theorem fixp_overflow_accounting_witness :
    (cfgSatDec.ovfl = .sat ∨ cfgSatDec.ovfl = .wrap) ∧
    (fixpBatch cfgSatDec .mult [5/2, -3, 1] ⟨0, 0, 0⟩).2.N_over_pos =
      0 + ([5/2, -3, 1].map (fun v => preQuant cfgSatDec .mult v)).countP
            (fun v => decide (cfgSatDec.MAX ≤ v)) :=
  ⟨Or.inl rfl,
   (fixp_overflow_accounting cfgSatDec .mult [5/2, -3, 1] ⟨0, 0, 0⟩
      (Or.inl rfl) rfl).1⟩

/-- Removing the radix point does not change whether an illegal CSD
character is present (the point itself is legal for the regex class). -/
theorem any_csdIllegal_filter_dot (l : List Char) :
    (l.filter (fun ch => ch ≠ '.')).any (fun ch => csdIllegal ch) =
      l.any (fun ch => csdIllegal ch) := by
  induction l with
  | nil => rfl
  | cons ch t ih =>
    by_cases h : ch = '.'
    · subst h
      rw [List.filter_cons_of_neg (by decide)]
      rw [List.any_cons, ih]
      simp [csdIllegal, csdLegal]
    · rw [List.filter_cons_of_pos (by simpa using h), List.any_cons,
        List.any_cons, ih]

/-- C8 (amended): `csd2dec` returns an absent result exactly when its
input contains a character outside the class `[+-0 ]` of the source's
regex — i.e. other than `'+'`, `','`, `'-'`, `'.'`, `'/'`, `'0'` and the
space (the class contains the RANGE `+-0`); in particular
`csd2dec("12X")` yields no result, and `frmt2float` on such a malformed
CSD string returns the external fallback value (or `0`). -/
theorem csd2dec_none_iff_illegal :
    (∀ s : String, csd2dec s = none ↔
      s.data.any (fun ch => csdIllegal ch) = true) ∧
    csd2dec "12X" = none ∧
    (∀ (c : QConfig) (fb : Option ℚ), c.frmt = Frmt.csd →
      frmt2float c fb "12X" = some (fb.getD 0)) := by
  refine ⟨?_, by with_unfolding_all decide, ?_⟩
  · intro s
    simp only [csd2dec]
    rcases hsp : splitOnDot s.data with _ | ⟨i, _ | ⟨f, _ | ⟨x, t⟩⟩⟩ <;>
      simp only [hsp] <;>
      [skip; skip; rw [any_csdIllegal_filter_dot]; skip] <;>
      by_cases h : s.data.any (fun ch => csdIllegal ch) = true <;>
      simp [h]
  · intro c fb h
    have hd : "12X".data = ['1', '2', 'X'] := rfl
    have hne : ("12X" : String) ≠ "" := by decide
    have hnf : c.frmt ≠ Frmt.float := by rw [h]; decide
    simp only [frmt2float, if_neg hne, if_neg hnf, hd, h]
    rfl

/-- C8 (witness). -/
theorem csd2dec_none_iff_illegal_witness :
    cfgSatCsd.frmt = Frmt.csd ∧
    frmt2float cfgSatCsd (some 7) "12X" = some ((some (7 : ℚ)).getD 0) :=
  ⟨rfl, csd2dec_none_iff_illegal.2.2 cfgSatCsd (some 7) rfl⟩

/-- Facts about binary digit characters. -/
theorem binDigit_facts (ch : Char) (h : ch ∈ binDigitChars) :
    isBaseDigit 2 ch = true ∧ frmtAllowed Frmt.bin ch = true ∧
    ch ≠ '.' ∧ ch ≠ ',' ∧ ch ≠ '-' ∧ ch ≠ '+' := by
  fin_cases h <;> decide

/-- Facts about hexadecimal digit characters. -/
theorem hexDigit_facts (ch : Char) (h : ch ∈ hexDigitChars) :
    isBaseDigit 16 ch = true ∧ frmtAllowed Frmt.hex ch = true ∧
    ch ≠ '.' ∧ ch ≠ ',' ∧ ch ≠ '-' ∧ ch ≠ '+' := by
  fin_cases h <;> decide

/-- `str.split('.')` of a dot-free string is the whole string. -/
theorem splitOnDot_nodot (l : List Char) (h : ∀ ch ∈ l, ch ≠ '.') :
    splitOnDot l = [l] := by
  induction l with
  | nil => rfl
  | cons a t ih =>
    have ha : a ≠ '.' := h a (by simp)
    have ht := ih (fun ch hc => h ch (by simp [hc]))
    simp [splitOnDot, ha, ht]

/-- `str.split('.')` around the first dot. -/
theorem splitOnDot_dot_append (l r : List Char) (h : ∀ ch ∈ l, ch ≠ '.') :
    splitOnDot (l ++ '.' :: r) = l :: splitOnDot r := by
  induction l with
  | nil => simp [splitOnDot]
  | cons a t ih =>
    have ha : a ≠ '.' := h a (by simp)
    have ht := ih (fun ch hc => h ch (by simp [hc]))
    simp [splitOnDot, ha, ht]

/-- The `',' → '.'` substitution is the identity on comma-free strings. -/
theorem map_no_comma (l : List Char) (h : ∀ ch ∈ l, ch ≠ ',') :
    l.map (fun ch => if ch = ',' then '.' else ch) = l := by
  induction l with
  | nil => rfl
  | cons a t ih =>
    have ha : a ≠ ',' := h a (by simp)
    have ht := ih (fun ch hc => h ch (by simp [hc]))
    simp [ha, ht]

/-- Removing dots from a dot-free string changes nothing. -/
theorem filter_nodot (l : List Char) (h : ∀ ch ∈ l, ch ≠ '.') :
    l.filter (fun ch => ch ≠ '.') = l := by
  induction l with
  | nil => rfl
  | cons a t ih =>
    have ha : a ≠ '.' := h a (by simp)
    have ht := ih (fun ch hc => h ch (by simp [hc]))
    rw [List.filter_cons_of_pos (by simpa using ha), ht]

/-- C7 (amended): for `frmt ∈ {bin, hex}` on a digit string
`ip ++ "." ++ fp`, `frmt2float` interprets the joined digit string as an
unsigned integer, divides it by `base ^ (fractional digit count)` FIRST,
then — if that quotient is `≥ base ^ int_places` where
`int_places = (integer digit count) - 1` — subtracts
`2 · base ^ int_places` from the quotient, and passes the result through
`fixp` with scaling `'div'`.  (As stated the claim compares the raw
integer against `base ^ int_places` and subtracts before dividing, which
disagrees with the code whenever there are fractional digits — see the
counterexample.) -/
theorem frmt2float_radix_twos_complement (c : QConfig) (fb : Option ℚ)
    (ip fp : List Char) (hf : c.frmt = Frmt.bin ∨ c.frmt = Frmt.hex)
    (hip : ip ≠ [])
    (hd : ∀ ch ∈ ip ++ fp,
      isBaseDigit c.base ch = true ∧ frmtAllowed c.frmt ch = true ∧
      ch ≠ '.' ∧ ch ≠ ',' ∧ ch ≠ '-' ∧ ch ≠ '+') :
    frmt2float c fb (String.mk (ip ++ '.' :: fp)) =
      some (fixp c .div
        (if qzpow (c.base : ℚ) ((ip.length : ℤ) - 1) ≤
              ((digitsVal c.base (ip ++ fp) : ℕ) : ℚ) / qnpow (c.base : ℚ) fp.length then
           ((digitsVal c.base (ip ++ fp) : ℕ) : ℚ) / qnpow (c.base : ℚ) fp.length -
             2 * qzpow (c.base : ℚ) ((ip.length : ℤ) - 1)
         else
           ((digitsVal c.base (ip ++ fp) : ℕ) : ℚ) / qnpow (c.base : ℚ) fp.length)) := by
  have hmk : ∀ l : List Char, (String.mk l).data = l := fun _ => rfl
  have hne : String.mk (ip ++ '.' :: fp) ≠ "" := by
    intro hc
    have h2 := congrArg String.data hc
    rw [hmk] at h2
    simp at h2
  have hnf : c.frmt ≠ Frmt.float := by rcases hf with h | h <;> rw [h] <;> decide
  have hnd : ¬(c.frmt = Frmt.dec) := by rcases hf with h | h <;> rw [h] <;> decide
  have hnc : ¬(c.frmt = Frmt.csd) := by rcases hf with h | h <;> rw [h] <;> decide
  have hdot : frmtAllowed c.frmt '.' = true := by
    rcases hf with h | h <;> rw [h] <;> decide
  have hfilter : (ip ++ '.' :: fp).filter (fun ch => frmtAllowed c.frmt ch) =
      ip ++ '.' :: fp := by
    apply List.filter_eq_self.mpr
    intro x hx
    rcases List.mem_append.1 hx with h1 | h1
    · exact (hd x (List.mem_append_left _ h1)).2.1
    · rcases List.mem_cons.1 h1 with h2 | h2
      · rw [h2]; exact hdot
      · exact (hd x (List.mem_append_right _ h2)).2.1
  have hmap : (ip ++ '.' :: fp).map (fun ch => if ch = ',' then '.' else ch) =
      ip ++ '.' :: fp := by
    apply map_no_comma
    intro x hx
    rcases List.mem_append.1 hx with h1 | h1
    · exact (hd x (List.mem_append_left _ h1)).2.2.2.1
    · rcases List.mem_cons.1 h1 with h2 | h2
      · rw [h2]; decide
      · exact (hd x (List.mem_append_right _ h2)).2.2.2.1
  rcases ip with _ | ⟨a, ip'⟩
  · exact absurd rfl hip
  have hnodot_ip : ∀ ch ∈ a :: ip', ch ≠ '.' :=
    fun ch hc => (hd ch (List.mem_append_left _ hc)).2.2.1
  have hnodot_fp : ∀ ch ∈ fp, ch ≠ '.' :=
    fun ch hc => (hd ch (List.mem_append_right _ hc)).2.2.1
  have hsplit : splitOnDot ((a :: ip') ++ '.' :: fp) = (a :: ip') :: [fp] := by
    rw [splitOnDot_dot_append _ _ hnodot_ip, splitOnDot_nodot fp hnodot_fp]
  have hraw : ((a :: ip') ++ '.' :: fp).filter (fun ch => ch ≠ '.') =
      (a :: ip') ++ fp := by
    rw [List.filter_append, filter_nodot _ hnodot_ip,
      List.filter_cons_of_neg (by decide), filter_nodot _ hnodot_fp]
  have hha : a ≠ '.' := hnodot_ip a (by simp)
  have hparse : parseIntBase c.base ((a :: ip') ++ fp) =
      some ((digitsVal c.base ((a :: ip') ++ fp) : ℕ) : ℤ) := by
    have hall : ((a :: ip') ++ fp).all (fun ch => isBaseDigit c.base ch) = true := by
      rw [List.all_eq_true]
      intro ch hc
      rcases List.mem_append.1 hc with h1 | h1
      · exact (hd ch (List.mem_append_left _ h1)).1
      · exact (hd ch (List.mem_append_right _ h1)).1
    have ha1 : a ≠ '-' := (hd a (List.mem_append_left _ (by simp))).2.2.2.2.1
    have ha2 : a ≠ '+' := (hd a (List.mem_append_left _ (by simp))).2.2.2.2.2
    show parseIntBase c.base (a :: (ip' ++ fp)) = _
    simp only [parseIntBase]
    rw [if_neg ha1, if_neg ha2]
    simp only [parseDigitsB]
    rw [if_pos ⟨by simp, by simpa using hall⟩]
    rfl
  have hhead : ((a :: ip') ++ '.' :: fp).head? = some a := rfl
  have hlen : ¬(((a :: ip') ++ '.' :: fp).length = 0) := by simp
  simp only [frmt2float, hmk, hne, hnf, hnd, hnc, hfilter, hmap, hlen, hhead,
    Option.some.injEq, hha, hsplit, hraw, hparse, Int.cast_natCast,
    if_false, ite_false, reduceIte]

/-- C7 (witness). -/
theorem frmt2float_radix_twos_complement_witness :
    (cfgSatBin.frmt = Frmt.bin ∨ cfgSatBin.frmt = Frmt.hex) ∧
    frmt2float cfgSatBin none (String.mk ['1', '.', '0', '1']) =
      some (fixp cfgSatBin .div
        (if qzpow (cfgSatBin.base : ℚ) (((['1'] : List Char).length : ℤ) - 1) ≤
              ((digitsVal cfgSatBin.base (['1'] ++ ['0', '1']) : ℕ) : ℚ) /
                qnpow (cfgSatBin.base : ℚ) (['0', '1'] : List Char).length then
           ((digitsVal cfgSatBin.base (['1'] ++ ['0', '1']) : ℕ) : ℚ) /
               qnpow (cfgSatBin.base : ℚ) (['0', '1'] : List Char).length -
             2 * qzpow (cfgSatBin.base : ℚ) (((['1'] : List Char).length : ℤ) - 1)
         else
           ((digitsVal cfgSatBin.base (['1'] ++ ['0', '1']) : ℕ) : ℚ) /
             qnpow (cfgSatBin.base : ℚ) (['0', '1'] : List Char).length)) :=
  ⟨Or.inl rfl,
   frmt2float_radix_twos_complement cfgSatBin none ['1'] ['0', '1'] (Or.inl rfl)
     (by decide) (by decide)⟩
